import Mathlib

/-!
Verification of the Extended XYZ trajectory reader
(`src/xyz_tools/extended_reader.py`).

The Python source is shallowly embedded below:

* Python string/number builtins used by the reader (`str.split`,
  `str.strip`, `int(...)`, `float(...)`, `bool(...)`, list slicing) are
  modelled as executable Lean functions over `String` / `List Char`,
  with Python `int` mapped to `ℤ` and Python `float` literals mapped to
  `ℚ` (the inputs are decimal text tokens; `inf`/`nan`/underscore
  grouping do not occur in this format and are not modelled).
* The module-level regex `KV_REGEX = (\w+)=(".*?"|\S+)` together with
  `re.findall` is modelled by an explicit left-to-right scanner
  (`findKV`).
* The line source (`self.file` iteration) is modelled as a
  `List String` of lines; `StopIteration` at a `next` call is the
  end-of-input case of the corresponding `match`.
* Exceptions become `Option`/explicit result constructors: the
  `AssertionError` of the row-width check keeps its message components
  (expected count, actual count, reported line number); every other
  exception (`ValueError`, `KeyError`, `IndexError`) is collapsed into
  a single error result, and a propagating `StopIteration` is the
  clean end of the frame sequence, exactly as in CPython where a
  non-generator `__next__` lets `StopIteration` escape.
-/

/-! ### Python string primitives -/

/-- Whitespace characters recognised by Python `str.split()` / `str.strip()`
for ASCII input. -/
def isPySpace (c : Char) : Bool :=
  c = ' ' || c = '\t' || c = '\n' || c = '\r' || c = '\x0b' || c = '\x0c'

/-- A `\w` character of the ASCII-encoded input: letters, digits, underscore. -/
def isWordChar (c : Char) : Bool :=
  c.isAlphanum || c = '_'

/-- Helper for `pySplitWs`: accumulate the current word (reversed) while
scanning the characters. -/
def splitWsAux : List Char → List Char → List String
  | acc, [] => if acc.isEmpty then [] else [String.mk acc.reverse]
  | acc, c :: r =>
    if isPySpace c then
      if acc.isEmpty then splitWsAux [] r
      else String.mk acc.reverse :: splitWsAux [] r
    else splitWsAux (c :: acc) r

/-- Python `s.split()` (no argument): split on runs of whitespace, with no
empty fields. -/
def pySplitWs (s : String) : List String :=
  splitWsAux [] s.data

/-- Helper for `pySplitOn`. -/
def splitOnAux (sep : Char) : List Char → List Char → List String
  | acc, [] => [String.mk acc.reverse]
  | acc, c :: r =>
    if c = sep then String.mk acc.reverse :: splitOnAux sep [] r
    else splitOnAux sep (c :: acc) r

/-- Python `s.split(sep)` for a one-character separator: every occurrence
splits, empty fields are kept, and the empty string yields `[""]`. -/
def pySplitOn (s : String) (sep : Char) : List String :=
  splitOnAux sep [] s.data

/-- Python `s.strip()` on the character list level. -/
def pyStrip (cs : List Char) : List Char :=
  ((cs.dropWhile isPySpace).reverse.dropWhile isPySpace).reverse

/-- Python `s.strip('"')`: remove all leading and trailing `"` characters. -/
def stripQuotes (s : String) : String :=
  String.mk (((s.data.dropWhile (· = '"')).reverse.dropWhile (· = '"')).reverse)

/-- Numeric value of a digit run (most significant first). -/
def digitsToNat (cs : List Char) : ℕ :=
  cs.foldl (fun a c => a * 10 + (c.toNat - '0'.toNat)) 0

/-- A non-empty run of ASCII decimal digits. -/
def allDigits (cs : List Char) : Bool :=
  !cs.isEmpty && cs.all (·.isDigit)

/-- Python `int(s)` on the decimal forms occurring in this format:
surrounding whitespace is stripped, an optional sign is followed by a
non-empty digit run; anything else raises `ValueError` (here: `none`). -/
def pyInt (s : String) : Option ℤ :=
  match pyStrip s.data with
  | '+' :: r => if allDigits r then some (digitsToNat r : ℤ) else none
  | '-' :: r => if allDigits r then some (-(digitsToNat r : ℤ)) else none
  | cs => if allDigits cs then some (digitsToNat cs : ℤ) else none

/-- Exponent suffix of a Python float literal: empty, or `e`/`E` with an
optional sign and a non-empty digit run. -/
def parseExpPart (m : ℚ) : List Char → Option ℚ
  | [] => some m
  | c :: r =>
    if c = 'e' ∨ c = 'E' then
      match r with
      | '+' :: d => if allDigits d then some (m * (10 : ℚ) ^ digitsToNat d) else none
      | '-' :: d => if allDigits d then some (m / (10 : ℚ) ^ digitsToNat d) else none
      | d => if allDigits d then some (m * (10 : ℚ) ^ digitsToNat d) else none
    else none

/-- Unsigned part of a Python float literal: `digits`, `digits.digits?`,
or `.digits`, each with an optional exponent. -/
def pyFloatMag (cs : List Char) : Option ℚ :=
  let ip := cs.takeWhile (·.isDigit)
  let r1 := cs.dropWhile (·.isDigit)
  match r1 with
  | '.' :: r2 =>
    let fp := r2.takeWhile (·.isDigit)
    let r3 := r2.dropWhile (·.isDigit)
    if ip.isEmpty && fp.isEmpty then none
    else parseExpPart ((digitsToNat (ip ++ fp) : ℚ) / (10 : ℚ) ^ fp.length) r3
  | _ => if ip.isEmpty then none else parseExpPart (digitsToNat ip : ℚ) r1

/-- Python `float(s)` on the finite decimal literals occurring in this
format (value as an exact rational; the binary rounding of CPython floats
is immaterial for the properties below, which never compare values that
would round differently). -/
def pyFloat (s : String) : Option ℚ :=
  match pyStrip s.data with
  | '+' :: r => pyFloatMag r
  | '-' :: r => (pyFloatMag r).map Neg.neg
  | cs => pyFloatMag cs

/-- Python list slicing `l[a:b]`: negative indices count from the end,
then both bounds are clamped to `[0, len]`. -/
def pySlice {α : Type} (l : List α) (a b : ℤ) : List α :=
  let norm : ℤ → ℕ := fun i =>
    if i < 0 then ((l.length : ℤ) + i).toNat.min l.length else i.toNat.min l.length
  ((l.drop (norm a)).take (norm b - norm a))

/-! ### The `KV_REGEX` scanner

`KV_REGEX = r'(\w+)=(".*?"|\S+)'` used through `re.findall`:
scan left to right; at each position a match is a maximal non-empty
`\w+` run immediately followed by `=`, whose value is the lazily
shortest double-quoted span (quotes included in the captured group, and
a quote must close before any newline) or, failing that, a maximal
non-empty `\S+` run.  On a match the scan resumes after it; otherwise it
advances one character. -/

/-- Split at the first closing `"` (failing at a newline or at the end,
mirroring that `.` in the pattern does not match a newline). -/
def findClose : List Char → Option (List Char × List Char)
  | [] => none
  | '"' :: r => some ([], r)
  | '\n' :: _ => none
  | c :: r => (findClose r).map (fun p => (c :: p.1, p.2))

/-- The value alternative `".*?"|\S+` of `KV_REGEX`. -/
def matchValue (cs : List Char) : Option (List Char × List Char) :=
  match cs with
  | '"' :: rest =>
    match findClose rest with
    | some (content, r3) => some ('"' :: (content ++ ['"']), r3)
    | none =>
      let v := cs.takeWhile (fun c => !isPySpace c)
      if v.isEmpty then none else some (v, cs.dropWhile (fun c => !isPySpace c))
  | _ =>
    let v := cs.takeWhile (fun c => !isPySpace c)
    if v.isEmpty then none else some (v, cs.dropWhile (fun c => !isPySpace c))

/-- One attempted match of `KV_REGEX` at the current position. -/
def tryMatch (cs : List Char) : Option (String × String × List Char) :=
  let w := cs.takeWhile isWordChar
  let r1 := cs.dropWhile isWordChar
  if w.isEmpty then none
  else
    match r1 with
    | '=' :: r2 =>
      match matchValue r2 with
      | some (v, r3) => some (String.mk w, String.mk v, r3)
      | none => none
    | _ => none

/-- Fuel-driven scan loop of `re.findall` (the fuel is the string length;
every step consumes at least one character). -/
def findKVFuel : ℕ → List Char → List (String × String)
  | 0, _ => []
  | _, [] => []
  | fuel + 1, c :: rest =>
    match tryMatch (c :: rest) with
    | some (k, v, r) => (k, v) :: findKVFuel fuel r
    | none => findKVFuel fuel rest

/-- `re.findall(KV_REGEX, comment)`: the list of `(key, raw value)` pairs,
in match order, raw values still carrying their quotes. -/
def findKV (comment : String) : List (String × String) :=
  findKVFuel comment.data.length comment.data

/-! ### The key/value dict -/

/-- Lookup in an insertion-ordered association list (Python dict read). -/
def dictLookup {α : Type} : List (String × α) → String → Option α
  | [], _ => none
  | p :: r, k => if p.1 = k then some p.2 else dictLookup r k

/-- Python dict assignment `d[k] = v`: overwrite in place if the key is
present (keys are unique by construction), else append at the end. -/
def kvInsert : List (String × String) → String → String → List (String × String)
  | [], k, v => [(k, v)]
  | p :: r, k, v => if p.1 = k then (k, v) :: r else p :: kvInsert r k v

/-- The dict comprehension `{k: v.strip('"') for k, v in kv_pairs}`:
insertion order with last-wins overwrite, values stripped of quotes. -/
def buildKVDict (pairs : List (String × String)) : List (String × String) :=
  pairs.foldl (fun d p => kvInsert d p.1 (stripQuotes p.2)) []

/-! ### Column data types and scalar coercion -/

/-- `ColumnDataType` of `extended_reader.py`. -/
inductive ColumnDataType
  | STRING
  | REAL
  | INT
  | BOOL
deriving DecidableEq, Repr

/-- `ColumnDataType.from_string`: decode the one-character type code;
an unknown code raises `ValueError` (here: `none`). -/
def ColumnDataType.from_string (data_type : String) : Option ColumnDataType :=
  if data_type = "S" then some .STRING
  else if data_type = "R" then some .REAL
  else if data_type = "I" then some .INT
  else if data_type = "B" then some .BOOL
  else none

/-- A Python scalar value produced by the parsers `str`/`float`/`int`/`bool`. -/
inductive PyScalar
  | str (s : String)
  | real (q : ℚ)
  | int (n : ℤ)
  | bool (b : Bool)
deriving DecidableEq, Repr

/-- `ColumnDataType.get_parser` applied to a token: `str` never fails,
`float`/`int` raise `ValueError` on unparsable text, and `bool` is the
Python builtin — the truthiness of a string, i.e. `True` for every
non-empty token. -/
def ColumnDataType.getParser : ColumnDataType → String → Option PyScalar
  | .STRING, t => some (.str t)
  | .REAL, t => (pyFloat t).map PyScalar.real
  | .INT, t => (pyInt t).map PyScalar.int
  | .BOOL, t => some (.bool (t != ""))

/-- The heuristic retyping loop over the remaining comment keys
(lines 97–120 of `extended_reader.py`): try `int`, then `float`, then the
exact literals `T`/`F`, else keep the string. -/
def coerceMeta (v : String) : PyScalar :=
  match pyInt v with
  | some n => .int n
  | none =>
    match pyFloat v with
    | some q => .real q
    | none =>
      if v = "T" then .bool true
      else if v = "F" then .bool false
      else .str v

/-! ### Comment-line parsing -/

/-- `FrameProperties` of `extended_reader.py` (one schema triple). -/
structure FrameProperties where
  label : String
  datatype : ColumnDataType
  column_count : ℤ
deriving DecidableEq, Repr

/-- The lazy `map(float, ...)` feeding `Lattice` decoding: every token
is converted (a `ValueError` anywhere fails the whole conversion). -/
def mapFloats : List String → Option (List ℚ)
  | [] => some []
  | t :: r =>
    match pyFloat t with
    | none => none
    | some q => (mapFloats r).map (q :: ·)

/-- `zip(*[iter(values)] * 3)`: consecutive triples, any 1–2 leftover
values silently dropped. -/
def latticeZip : List ℚ → List (ℚ × ℚ × ℚ)
  | a :: b :: c :: r => (a, b, c) :: latticeZip r
  | _ => []

/-- Lines 84–86 of `extended_reader.py`: split the `Lattice` value on
whitespace, convert every token with `float`, group into triples. -/
def parseLattice (v : String) : Option (List (ℚ × ℚ × ℚ)) :=
  (mapFloats (pySplitWs v)).map latticeZip

/-- The triple-decoding loop over `properties[i], properties[i+1],
properties[i+2]` for `i = 0, 3, 6, ...` (lines 90–94): a list whose
length is not a multiple of 3 ends in an `IndexError` (after any
`from_string` check that happens first on a trailing pair), an unknown
type code raises `ValueError`, and a count that `int` cannot parse
raises `ValueError` — all collapsed to `none`. -/
def parsePropsList : List String → Option (List FrameProperties)
  | [] => some []
  | [_] => none
  | [_, _] => none
  | l :: t :: c :: rest => do
    let dt ← ColumnDataType.from_string t
    let cc ← pyInt c
    let tail ← parsePropsList rest
    pure (⟨l, dt, cc⟩ :: tail)

/-- Lines 88–95: decode the `Properties` value. -/
def parseProps (v : String) : Option (List FrameProperties) :=
  parsePropsList (pySplitOn v ':')

/-- The structured result of `__parse_extended_comment`: the decoded
lattice, the decoded schema, and the remaining keys heuristically typed,
in dict (first-insertion) order. -/
structure ParsedComment where
  lattice : List (ℚ × ℚ × ℚ)
  props : List FrameProperties
  extra : List (String × PyScalar)
deriving DecidableEq, Repr

/-- `__parse_extended_comment` (lines 80–122): KV extraction and dict
build, then `Lattice` (a missing key raises `KeyError`), then
`Properties`, then the retyping loop over the remaining keys. -/
def parseComment (comment : String) : Option ParsedComment :=
  let kv := buildKVDict (findKV comment)
  match dictLookup kv "Lattice" with
  | none => none
  | some latStr =>
    match parseLattice latStr with
    | none => none
    | some lat =>
      match dictLookup kv "Properties" with
      | none => none
      | some propStr =>
        match parseProps propStr with
        | none => none
        | some props =>
          some ⟨lat, props,
            (kv.filter (fun p => !(p.1 == "Lattice" || p.1 == "Properties"))).map
              (fun p => (p.1, coerceMeta p.2))⟩

/-! ### Frame assembly -/

/-- One entry of a per-atom column: a bare scalar when
`column_count == 1`, else the list of scalars of the slice. -/
inductive ColEntry
  | scalar (v : PyScalar)
  | vec (vs : List PyScalar)
deriving DecidableEq, Repr

/-- The `data` dict of `__read_frame`: label → accumulated column. -/
abbrev ColData := List (String × List ColEntry)

/-- `data[prop.label].append(entry)` with the preceding
`if prop.label not in data: data[prop.label] = []`: append into the
existing column, else introduce the label at the end. -/
def dataAppend : ColData → String → ColEntry → ColData
  | [], l, e => [(l, [e])]
  | p :: r, l, e =>
    if p.1 = l then (p.1, p.2 ++ [e]) :: r
    else p :: dataAppend r l e

/-- `sum(prop.column_count for prop in properties)`. -/
def totalCols (props : List FrameProperties) : ℤ :=
  (props.map (·.column_count)).sum

/-- The inner schema walk of `__read_frame` (lines 140–152): slice
`split[offset : offset + column_count]`, coerce through the column's
parser (`raw_data[0]` raising `IndexError` on an empty slice when
`column_count == 1`), append, advance the offset. -/
def processRow (split : List String) : List FrameProperties → ℤ → ColData → Option ColData
  | [], _, data => some data
  | p :: ps, offset, data =>
    let raw := pySlice split offset (offset + p.column_count)
    let entry : Option ColEntry :=
      if p.column_count = 1 then
        match raw.head? with
        | none => none
        | some t => (p.datatype.getParser t).map ColEntry.scalar
      else
        (raw.mapM p.datatype.getParser).map ColEntry.vec
    match entry with
    | none => none
    | some e => processRow split ps (offset + p.column_count) (dataAppend data p.label e)

/-- Result of the row loop of `__read_frame`. -/
inductive RowsOutcome
  | ok (data : ColData) (rest : List String)
  | eof
  | assertFail (expected : ℤ) (got : ℕ) (line : ℕ)
  | parseErr
deriving DecidableEq, Repr

/-- The `for atom_idx in range(num_atoms)` loop (lines 133–152): read a
line (`StopIteration` escapes as `eof`), assert the token count against
the schema total — the `AssertionError` message carries
`Expected {total} columns, got {len(split)}, at line {atom_idx + 3}` —
then process the row. -/
def readRows : List String → ℕ → ℕ → List FrameProperties → ℤ → ColData → RowsOutcome
  | lines, 0, _, _, _, data => .ok data lines
  | [], _ + 1, _, _, _, _ => .eof
  | line :: rest, r + 1, atomIdx, props, total, data =>
    let split := pySplitWs line
    if (split.length : ℤ) = total then
      match processRow split props 0 data with
      | none => .parseErr
      | some data2 => readRows rest r (atomIdx + 1) props total data2
    else .assertFail total split.length (atomIdx + 3)

/-- `ExtXYZFrame` of `extended_reader.py`. -/
structure ExtXYZFrame where
  num_atoms : ℤ
  LatticeVectors : List (ℚ × ℚ × ℚ)
  frameProps : List FrameProperties
  ExtraKV : List (String × PyScalar)
  data : ColData
deriving DecidableEq, Repr

/-- Result of one `__next__` call on the reader. -/
inductive ReadResult
  | frame (f : ExtXYZFrame) (rest : List String)
  | endOfSequence
  | malformedRow (expected : ℤ) (got : ℕ) (line : ℕ)
  | error
deriving DecidableEq, Repr

/-- `__read_frame` (lines 124–164) driven by `__next__`: parse the atom
count (`StopIteration` at end of input escapes the non-generator
`__next__` and ends the iteration cleanly — including when it strikes at
the comment line or at an atom row — while `ValueError` from `int` is an
error), parse the comment, run the row loop, build the frame.  The
returned `rest` is the part of the line source not consumed. -/
def readFrame (lines : List String) : ReadResult :=
  match lines with
  | [] => .endOfSequence
  | l1 :: r1 =>
    match pyInt l1 with
    | none => .error
    | some n =>
      match r1 with
      | [] => .endOfSequence
      | l2 :: r2 =>
        match parseComment l2 with
        | none => .error
        | some pc =>
          match readRows r2 n.toNat 0 pc.props (totalCols pc.props) [] with
          | .ok data rest =>
            .frame ⟨n, pc.lattice, pc.props, pc.extra, data⟩ rest
          | .eof => .endOfSequence
          | .assertFail e g l => .malformedRow e g l
          | .parseErr => .error

/-! ### C1: boolean column coercion -/

/-- C1: the claim says boolean-typed columns coerce exactly the literals
`T`/`F` (with `F` ↦ false) and fail with `TypeMismatch` on any other
token.  The code instead applies the Python builtin `bool`, i.e. string
truthiness: every non-empty token — including the literal `F` —
coerces successfully to `true`, and coercion never fails. -/
theorem C1_bool_truthiness :
    ColumnDataType.getParser ColumnDataType.BOOL "F" = some (PyScalar.bool true) ∧
    ColumnDataType.getParser ColumnDataType.BOOL "xyz" = some (PyScalar.bool true) ∧
    ColumnDataType.getParser ColumnDataType.BOOL "T" = some (PyScalar.bool true) := by
  decide

/-! ### C2: end of input at the three read points -/

/-- C2 counterexample: the claim says end of input reached mid-frame
(here: while expecting the comment line, after the atom-count line `"2"`
was read) raises a `TruncatedFrame` error rather than ending the
sequence cleanly.  The code lets the `StopIteration` escape, so the
reader reports a clean end of sequence, not an error. -/
theorem C2_counterexample : readFrame ["2"] = ReadResult.endOfSequence := by
  decide

/-- Whether a row parses is independent of the accumulated columns. -/
theorem processRow_isSome_congr (split : List String) :
    ∀ (props : List FrameProperties) (off : ℤ) (d1 d2 : ColData),
      (processRow split props off d1).isSome ↔ (processRow split props off d2).isSome := by
  intro props
  induction props with
  | nil => intro off d1 d2; simp [processRow]
  | cons p ps ih =>
    intro off d1 d2
    simp only [processRow]
    cases hentry :
        (if p.column_count = 1 then
          match (pySlice split off (off + p.column_count)).head? with
          | none => none
          | some t => (p.datatype.getParser t).map ColEntry.scalar
        else
          ((pySlice split off (off + p.column_count)).mapM p.datatype.getParser).map
            ColEntry.vec) with
    | none => simp
    | some e => simpa using ih (off + p.column_count) (dataAppend d1 p.label e) (dataAppend d2 p.label e)

/-- If the line source runs out while rows are still expected — however
many well-formed rows were already consumed — the row loop ends with
`eof` (the escaping `StopIteration`), never an error. -/
theorem readRows_eof (props : List FrameProperties) (total : ℤ) :
    ∀ (rows : List String) (m rem : ℕ) (data : ColData),
      rows.length < rem →
      (∀ r ∈ rows, ((pySplitWs r).length : ℤ) = total ∧
        (processRow (pySplitWs r) props 0 []).isSome) →
      readRows rows rem m props total data = RowsOutcome.eof := by
  intro rows
  induction rows with
  | nil =>
    intro m rem data hrem hgood
    obtain ⟨k, hk⟩ : ∃ k, rem = k + 1 := ⟨rem - 1, by omega⟩
    subst hk
    rfl
  | cons r rows' ih =>
    intro m rem data hrem hgood
    obtain ⟨k, hk⟩ : ∃ k, rem = k + 1 := ⟨rem - 1, by omega⟩
    subst hk
    obtain ⟨hlen, hsome⟩ := hgood r (by simp)
    have hsome' : (processRow (pySplitWs r) props 0 data).isSome :=
      (processRow_isSome_congr (pySplitWs r) props 0 data []).mpr hsome
    obtain ⟨d2, hd2⟩ := Option.isSome_iff_exists.mp hsome'
    have ihr := ih (m + 1) k d2 (by simp at hrem; omega)
      (fun q hq => hgood q (by simp [hq]))
    rw [show readRows (r :: rows') (k + 1) m props total data =
        readRows rows' k (m + 1) props total d2 by
      simp [readRows, hlen, hd2]]
    exact ihr

/-- C2 amended: end of input at the atom-count line of a new frame ends
the sequence cleanly; end of input mid-frame ALSO ends the sequence
cleanly — while expecting the comment line, or while expecting any of
the remaining atom rows after any number of well-formed rows were
already consumed — because no `TruncatedFrame` error exists in the code
and the end-of-input signal simply propagates; a non-integer atom-count
line raises an error (`ValueError`). -/
theorem C2_amended :
    readFrame [] = ReadResult.endOfSequence ∧
    (∀ l1 n, pyInt l1 = some n → readFrame [l1] = ReadResult.endOfSequence) ∧
    (∀ l1 l2 n pc (rows : List String), pyInt l1 = some n → parseComment l2 = some pc →
      rows.length < n.toNat →
      (∀ r ∈ rows, ((pySplitWs r).length : ℤ) = totalCols pc.props ∧
        (processRow (pySplitWs r) pc.props 0 []).isSome) →
      readFrame (l1 :: l2 :: rows) = ReadResult.endOfSequence) ∧
    (∀ l1 rest, pyInt l1 = none → readFrame (l1 :: rest) = ReadResult.error) := by
  refine ⟨rfl, ?_, ?_, ?_⟩
  · intro l1 n h
    simp [readFrame, h]
  · intro l1 l2 n pc rows h1 h2 hlt hgood
    have hrr := readRows_eof pc.props (totalCols pc.props) rows 0 n.toNat [] hlt hgood
    simp [readFrame, h1, h2, hrr]
  · intro l1 rest h
    cases rest <;> simp [readFrame, h]

/-- C2 witness: EOF while expecting the comment line, EOF while
expecting the second atom row after one valid row was consumed, and a
non-integer atom-count line. -/
theorem C2_amended_witness :
    readFrame ["2"] = ReadResult.endOfSequence ∧
    readFrame ["2", "Lattice=\"0 0 0 0 0 0 0 0 0\" Properties=a:S:1", "x"] =
      ReadResult.endOfSequence ∧
    readFrame ["x", "y"] = ReadResult.error :=
  ⟨C2_amended.2.1 "2" 2 (by decide),
   C2_amended.2.2.1 "2" "Lattice=\"0 0 0 0 0 0 0 0 0\" Properties=a:S:1" 2
     ⟨[(0, 0, 0), (0, 0, 0), (0, 0, 0)], [⟨"a", ColumnDataType.STRING, 1⟩], []⟩
     ["x"] (by decide) (by decide) (by decide) (by decide),
   C2_amended.2.2.2 "x" ["y"] (by decide)⟩

/-! ### C10: zero-atom frames -/

/-- C10: a frame whose atom-count line parses to `0` and whose comment
line is well-formed consumes exactly the two header lines (the remaining
line source is returned untouched) and yields a frame whose `data`
mapping is completely empty — even when the schema declares properties —
while the atom count, lattice, schema and extra metadata are populated
from the header. -/
theorem C10_zero_atoms (l1 l2 : String) (pc : ParsedComment) (rest : List String)
    (h1 : pyInt l1 = some 0) (h2 : parseComment l2 = some pc) :
    readFrame (l1 :: l2 :: rest) =
      ReadResult.frame ⟨0, pc.lattice, pc.props, pc.extra, []⟩ rest := by
  simp [readFrame, h1, h2, readRows]

/-- C10 witness: a zero-atom frame with a non-empty declared schema. -/
theorem C10_zero_atoms_witness :
    readFrame ["0", "Lattice=\"0 0 0 0 0 0 0 0 0\" Properties=a:S:1", "junk"] =
      ReadResult.frame
        ⟨0, [(0, 0, 0), (0, 0, 0), (0, 0, 0)],
         [⟨"a", ColumnDataType.STRING, 1⟩], [], []⟩ ["junk"] :=
  C10_zero_atoms "0" "Lattice=\"0 0 0 0 0 0 0 0 0\" Properties=a:S:1"
    ⟨[(0, 0, 0), (0, 0, 0), (0, 0, 0)], [⟨"a", ColumnDataType.STRING, 1⟩], []⟩
    ["junk"] (by decide) (by decide)

/-! ### C3: lattice decoding has no 9-value check -/

/-- The grouping `zip(*[iter(..)] * 3)` keeps `⌊n/3⌋` triples. -/
theorem latticeZip_length (qs : List ℚ) : (latticeZip qs).length = qs.length / 3 := by
  induction qs using latticeZip.induct with
  | case1 a b c r ih => simp only [latticeZip, List.length_cons]; omega
  | case2 q h =>
    cases q with
    | nil => simp [latticeZip]
    | cons a t =>
      cases t with
      | nil => simp [latticeZip]
      | cons b t2 =>
        cases t2 with
        | nil => simp [latticeZip]
        | cons c t3 => exact (h a b c t3 rfl).elim

/-- C3 counterexample: the claim says a `Lattice` value whose split
yields fewer than 9 reals fails with `MalformedHeader`.  The code
performs no count check: 8 reals decode successfully into 2 vectors,
the 2 leftover values silently dropped. -/
theorem C3_counterexample :
    parseLattice "1 0 0 0 1 0 0 0" = some [(1, 0, 0), (0, 1, 0)] := by
  decide

/-- C3 amended: the `Lattice` value is split on whitespace and every
token must convert as a real (a failing token is an error, and a missing
`Lattice` key is an error), but there is no 9-value check: the reals are
grouped into consecutive triples with any 1–2 leftover values silently
dropped, so fewer or more than 9 reals can succeed, yielding
`⌊n/3⌋` vectors. -/
theorem C3_amended (s : String) (qs : List ℚ)
    (hq : mapFloats (pySplitWs s) = some qs) :
    parseLattice s = some (latticeZip qs) ∧
    (latticeZip qs).length = qs.length / 3 ∧
    (∀ s2, mapFloats (pySplitWs s2) = none → parseLattice s2 = none) ∧
    (∀ c, dictLookup (buildKVDict (findKV c)) "Lattice" = none → parseComment c = none) := by
  refine ⟨by simp [parseLattice, hq], latticeZip_length qs, ?_, ?_⟩
  · intro s2 h
    simp [parseLattice, h]
  · intro c h
    simp [parseComment, h]

/-- C3 witness: 6 reals decode to 2 vectors without error. -/
theorem C3_amended_witness :
    parseLattice "1 2 3 4 5 6" = some (latticeZip [1, 2, 3, 4, 5, 6]) :=
  (C3_amended "1 2 3 4 5 6" [1, 2, 3, 4, 5, 6] (by decide)).1

/-! ### C8: 9-real lattice strings decode in order -/

/-- C8: a `Lattice` string splitting into exactly 9 tokens, each
converting as a real, decodes to exactly 3 vectors of 3 reals, grouped
consecutively and in input order. -/
theorem C8_lattice_decode (s : String) (t1 t2 t3 t4 t5 t6 t7 t8 t9 : String)
    (q1 q2 q3 q4 q5 q6 q7 q8 q9 : ℚ)
    (hsplit : pySplitWs s = [t1, t2, t3, t4, t5, t6, t7, t8, t9])
    (h1 : pyFloat t1 = some q1) (h2 : pyFloat t2 = some q2) (h3 : pyFloat t3 = some q3)
    (h4 : pyFloat t4 = some q4) (h5 : pyFloat t5 = some q5) (h6 : pyFloat t6 = some q6)
    (h7 : pyFloat t7 = some q7) (h8 : pyFloat t8 = some q8) (h9 : pyFloat t9 = some q9) :
    parseLattice s = some [(q1, q2, q3), (q4, q5, q6), (q7, q8, q9)] := by
  simp [parseLattice, hsplit, mapFloats, h1, h2, h3, h4, h5, h6, h7, h8, h9, latticeZip]

/-- C8 witness: the spec's example string decodes to the identity-like
vectors. -/
theorem C8_lattice_decode_witness :
    parseLattice "1 0 0 0 1 0 0 0 1" = some [(1, 0, 0), (0, 1, 0), (0, 0, 1)] :=
  C8_lattice_decode "1 0 0 0 1 0 0 0 1" "1" "0" "0" "0" "1" "0" "0" "0" "1"
    1 0 0 0 1 0 0 0 1 (by decide) (by decide) (by decide) (by decide) (by decide)
    (by decide) (by decide) (by decide) (by decide) (by decide)

/-! ### C6: Properties decoding failures -/

/-- A token list whose length is not a multiple of 3 always fails: the
stride walk runs off the end of the list (`IndexError`), possibly after
an earlier `ValueError`. -/
theorem parsePropsList_none_of_mod (toks : List String) (h : toks.length % 3 ≠ 0) :
    parsePropsList toks = none := by
  induction toks using parsePropsList.induct with
  | case1 => simp at h
  | case2 => rfl
  | case3 => rfl
  | case4 l t c rest ih =>
    have hr : rest.length % 3 ≠ 0 := by simp at h; omega
    cases hdt : ColumnDataType.from_string t
    · simp [parsePropsList, hdt]
    · cases hcc : pyInt c
      · simp [parsePropsList, hdt, hcc]
      · simp [parsePropsList, hdt, hcc, ih hr]

/-- Auxiliary strong induction for `parsePropsList_append_none`. -/
theorem parsePropsList_append_none_aux (mid : List String) (hmid : parsePropsList mid = none) :
    ∀ n (pre : List String), pre.length = n → pre.length % 3 = 0 →
      parsePropsList (pre ++ mid) = none := by
  intro n
  induction n using Nat.strong_induction_on with
  | _ n ih =>
    intro pre hn hpre
    match pre, hpre, hn with
    | [], _, _ => simpa using hmid
    | [_], h, _ => simp at h
    | [_, _], h, _ => simp at h
    | l :: t :: c :: r, h, hn =>
      have ihr : parsePropsList (r ++ mid) = none := by
        refine ih r.length ?_ r rfl ?_
        · simp only [List.length_cons] at hn; omega
        · simp only [List.length_cons] at h; omega
      cases hdt : ColumnDataType.from_string t
      · simp [parsePropsList, hdt]
      · cases hcc : pyInt c
        · simp [parsePropsList, hdt, hcc]
        · simp [parsePropsList, hdt, hcc, ihr]

/-- A failure in a later triple fails the whole decode, whatever the
(well-formed) triples before it. -/
theorem parsePropsList_append_none (mid : List String) (hmid : parsePropsList mid = none)
    (pre : List String) (hpre : pre.length % 3 = 0) :
    parsePropsList (pre ++ mid) = none :=
  parsePropsList_append_none_aux mid hmid pre.length pre rfl hpre

/-- C6 counterexample: the claim says a count that does not parse as a
POSITIVE integer fails with `MalformedHeader`.  The code only applies
`int(...)`: the non-positive counts `0` and `-2` decode successfully. -/
theorem C6_counterexample :
    parseProps "a:S:0" = some [⟨"a", ColumnDataType.STRING, 0⟩] ∧
    parseProps "a:S:-2" = some [⟨"a", ColumnDataType.STRING, -2⟩] := by
  decide

/-- C6 amended: a `Properties` value whose colon-split length is not a
multiple of 3, or that contains a type code outside `{S, R, I, B}` at a
type position, or a count that does not parse as an integer (sign
permitted — positivity is NOT checked), fails; a missing `Properties`
key likewise fails. -/
theorem C6_amended :
    (∀ toks : List String, toks.length % 3 ≠ 0 → parsePropsList toks = none) ∧
    (∀ (pre : List String) l t c (rest : List String), pre.length % 3 = 0 →
      ColumnDataType.from_string t = none →
      parsePropsList (pre ++ l :: t :: c :: rest) = none) ∧
    (∀ (pre : List String) l t c (rest : List String), pre.length % 3 = 0 →
      pyInt c = none →
      parsePropsList (pre ++ l :: t :: c :: rest) = none) ∧
    (∀ cm, dictLookup (buildKVDict (findKV cm)) "Properties" = none →
      parseComment cm = none) := by
  refine ⟨parsePropsList_none_of_mod, ?_, ?_, ?_⟩
  · intro pre l t c rest hpre hdt
    exact parsePropsList_append_none _ (by simp [parsePropsList, hdt]) pre hpre
  · intro pre l t c rest hpre hcc
    refine parsePropsList_append_none _ ?_ pre hpre
    cases hdt : ColumnDataType.from_string t
    · simp [parsePropsList, hdt]
    · simp [parsePropsList, hdt, hcc]
  · intro cm h
    cases hl : dictLookup (buildKVDict (findKV cm)) "Lattice" with
    | none => simp [parseComment, hl]
    | some latStr =>
      cases hlat : parseLattice latStr with
      | none => simp [parseComment, hl, hlat]
      | some lat => simp [parseComment, hl, hlat, h]

/-- C6 witness: a trailing pair, a bad type code, a non-integer count,
and a comment line carrying only `Lattice`. -/
theorem C6_amended_witness :
    parsePropsList ["a", "S"] = none ∧
    parsePropsList ["a", "X", "1"] = none ∧
    parsePropsList ["a", "S", "b"] = none ∧
    parseComment "Lattice=\"0 0 0 0 0 0 0 0 0\"" = none :=
  ⟨C6_amended.1 ["a", "S"] (by decide),
   C6_amended.2.1 [] "a" "X" "1" [] (by decide) (by decide),
   C6_amended.2.2.1 [] "a" "S" "b" [] (by decide) (by decide),
   C6_amended.2.2.2 "Lattice=\"0 0 0 0 0 0 0 0 0\"" (by decide)⟩

/-! ### C7: valid Properties strings decode triple by triple -/

/-- Flatten explicit triples into the colon-split token list. -/
def triplesTokens : List (String × String × String) → List String
  | [] => []
  | (l, t, c) :: r => l :: t :: c :: triplesTokens r

/-- Decoding over well-formed triple lists, by induction. -/
theorem parsePropsList_triples :
    ∀ (trs : List (String × String × String)) (specs : List FrameProperties),
      trs.length = specs.length →
      (∀ pr ∈ trs.zip specs,
        pr.1.1 = pr.2.label ∧ ColumnDataType.from_string pr.1.2.1 = some pr.2.datatype ∧
        pyInt pr.1.2.2 = some pr.2.column_count) →
      parsePropsList (triplesTokens trs) = some specs := by
  intro trs
  induction trs with
  | nil =>
    intro specs hlen _
    cases specs
    · rfl
    · simp at hlen
  | cons hd tl ih =>
    intro specs hlen hm
    cases specs with
    | nil => simp at hlen
    | cons sp sps =>
      obtain ⟨l, t, c⟩ := hd
      obtain ⟨h1, h2, h3⟩ := hm ((l, t, c), sp) (by simp)
      have htail := ih sps (by simpa using hlen) (fun pr hpr => hm pr (by simp [hpr]))
      cases sp with
      | mk lab dt cc =>
        simp only at h1 h2 h3
        simp [triplesTokens, parsePropsList, h1, h2, h3, htail]

/-- C7: a `Properties` string of the form `L1:T1:C1:L2:T2:C2:...` whose
type codes decode and whose counts parse as integers yields one
`FrameProperties` per triple, in input order, with exactly that triple's
label, decoded type and parsed count. -/
theorem C7_schema_decode (s : String) (trs : List (String × String × String))
    (specs : List FrameProperties)
    (hsplit : pySplitOn s ':' = triplesTokens trs)
    (hlen : trs.length = specs.length)
    (hmatch : ∀ pr ∈ trs.zip specs,
      pr.1.1 = pr.2.label ∧ ColumnDataType.from_string pr.1.2.1 = some pr.2.datatype ∧
      pyInt pr.1.2.2 = some pr.2.column_count) :
    parseProps s = some specs := by
  rw [parseProps, hsplit]
  exact parsePropsList_triples trs specs hlen hmatch

/-- C7 witness: the spec's example schema string. -/
theorem C7_schema_decode_witness :
    parseProps "species:S:1:pos:R:3" =
      some [⟨"species", ColumnDataType.STRING, 1⟩, ⟨"pos", ColumnDataType.REAL, 3⟩] :=
  C7_schema_decode "species:S:1:pos:R:3"
    [("species", "S", "1"), ("pos", "R", "3")]
    [⟨"species", ColumnDataType.STRING, 1⟩, ⟨"pos", ColumnDataType.REAL, 3⟩]
    (by decide) (by decide) (by decide)

/-! ### C9: duplicate keys in a comment line, last occurrence wins -/

/-- The value of the LAST `key=value` occurrence of `k` in the pair list
(still unstripped). -/
def lastVal : List (String × String) → String → Option String
  | [], _ => none
  | p :: r, k =>
    match lastVal r k with
    | some v => some v
    | none => if p.1 = k then some p.2 else none

theorem dictLookup_kvInsert_self (d : List (String × String)) (k v : String) :
    dictLookup (kvInsert d k v) k = some v := by
  induction d with
  | nil => simp [kvInsert, dictLookup]
  | cons p r ih =>
    by_cases hk : p.1 = k
    · simp [kvInsert, dictLookup, hk]
    · simp [kvInsert, dictLookup, hk, ih]

theorem dictLookup_kvInsert_ne (d : List (String × String)) (k v k' : String) (h : k' ≠ k) :
    dictLookup (kvInsert d k v) k' = dictLookup d k' := by
  induction d with
  | nil => simp [kvInsert, dictLookup, h, Ne.symm h]
  | cons p r ih =>
    by_cases hk : p.1 = k
    · simp [kvInsert, dictLookup, hk, h, Ne.symm h]
    · by_cases hk' : p.1 = k'
      · simp [kvInsert, dictLookup, hk, hk', h, Ne.symm h]
      · simp [kvInsert, dictLookup, hk, hk', h, Ne.symm h, ih]

theorem dictLookup_foldKV (pairs : List (String × String)) :
    ∀ (d : List (String × String)) (k : String),
      dictLookup (pairs.foldl (fun d p => kvInsert d p.1 (stripQuotes p.2)) d) k =
        match lastVal pairs k with
        | some v => some (stripQuotes v)
        | none => dictLookup d k := by
  induction pairs with
  | nil => intro d k; rfl
  | cons p r ih =>
    intro d k
    rw [List.foldl_cons, ih]
    cases hlv : lastVal r k with
    | some v => simp [lastVal, hlv]
    | none =>
      by_cases hk : p.1 = k
      · simp [lastVal, hlv, hk, dictLookup_kvInsert_self]
      · simp [lastVal, hlv, hk, dictLookup_kvInsert_ne _ _ _ _ (Ne.symm hk)]

theorem kvInsert_keys (d : List (String × String)) (k v : String) :
    ∀ x ∈ (kvInsert d k v).map Prod.fst, x = k ∨ x ∈ d.map Prod.fst := by
  induction d with
  | nil => simp [kvInsert]
  | cons p r ih =>
    intro x hx
    by_cases hk : p.1 = k
    · simp [kvInsert, hk] at hx
      rcases hx with hx | hx
      · exact Or.inl hx
      · exact Or.inr (by simp [hx])
    · simp [kvInsert, hk] at hx
      rcases hx with hx | hx
      · exact Or.inr (by simp [hx])
      · rcases ih x (by simpa using hx) with h1 | h1
        · exact Or.inl h1
        · exact Or.inr (by simp [h1])

theorem kvInsert_nodup (d : List (String × String)) (k v : String)
    (h : (d.map Prod.fst).Nodup) : ((kvInsert d k v).map Prod.fst).Nodup := by
  induction d with
  | nil => simp [kvInsert]
  | cons p r ih =>
    rw [List.map_cons, List.nodup_cons] at h
    by_cases hk : p.1 = k
    · have he : kvInsert (p :: r) k v = (k, v) :: r := by simp [kvInsert, hk]
      rw [he, List.map_cons, List.nodup_cons]
      exact ⟨hk ▸ h.1, h.2⟩
    · have he : kvInsert (p :: r) k v = p :: kvInsert r k v := by simp [kvInsert, hk]
      rw [he, List.map_cons, List.nodup_cons]
      refine ⟨?_, ih h.2⟩
      intro hmem
      rcases kvInsert_keys r k v p.1 hmem with h1 | h1
      · exact hk h1
      · exact h.1 h1

theorem buildKVDict_nodup (pairs : List (String × String)) :
    ((buildKVDict pairs).map Prod.fst).Nodup := by
  suffices h : ∀ d : List (String × String), (d.map Prod.fst).Nodup →
      (((pairs.foldl (fun d p => kvInsert d p.1 (stripQuotes p.2)) d)).map Prod.fst).Nodup by
    exact h [] (by simp)
  induction pairs with
  | nil => intro d hd; simpa using hd
  | cons p r ih =>
    intro d hd
    rw [List.foldl_cons]
    exact ih _ (kvInsert_nodup d p.1 (stripQuotes p.2) hd)

theorem countP_keys_eq_one (d : List (String × String)) (k : String)
    (h : (d.map Prod.fst).Nodup) (hs : (dictLookup d k).isSome) :
    d.countP (fun p => p.1 == k) = 1 := by
  induction d with
  | nil => simp [dictLookup] at hs
  | cons p r ih =>
    rw [List.map_cons, List.nodup_cons] at h
    by_cases hk : p.1 = k
    · have hz : r.countP (fun p => p.1 == k) = 0 := by
        rw [List.countP_eq_zero]
        intro q hq
        simp only [beq_iff_eq]
        intro hqk
        exact h.1 (by rw [← hk] at hqk; exact hqk ▸ List.mem_map_of_mem Prod.fst hq)
      simp [List.countP_cons, hk, hz]
    · have hs' : (dictLookup r k).isSome := by
        simpa [dictLookup, hk] using hs
      simp [List.countP_cons, hk, ih h.2 hs']

theorem lastVal_isSome (pairs : List (String × String)) (k : String)
    (h : 1 ≤ pairs.countP (fun p => p.1 == k)) : (lastVal pairs k).isSome := by
  induction pairs with
  | nil => simp at h
  | cons p r ih =>
    cases hlv : lastVal r k with
    | some v => simp [lastVal, hlv]
    | none =>
      by_cases hk : p.1 = k
      · simp [lastVal, hlv, hk]
      · rw [List.countP_cons] at h
        simp only [hk, beq_iff_eq, if_neg hk] at h
        have := ih (by simpa using h)
        rw [hlv] at this
        simp at this

/-- C9: when the same key appears more than once among the extracted
`key=value` tokens of a comment line, the built mapping contains the key
exactly once, bound to the (quote-stripped) value of its last
occurrence — last-wins overwrite, not an error. -/
theorem C9_last_wins (comment k : String)
    (h : 2 ≤ (findKV comment).countP (fun p => p.1 == k)) :
    (buildKVDict (findKV comment)).countP (fun p => p.1 == k) = 1 ∧
    dictLookup (buildKVDict (findKV comment)) k =
      (lastVal (findKV comment) k).map stripQuotes := by
  have h1 : 1 ≤ (findKV comment).countP (fun p => p.1 == k) := le_trans (by norm_num) h
  obtain ⟨v, hv⟩ := Option.isSome_iff_exists.mp (lastVal_isSome (findKV comment) k h1)
  have hlook : dictLookup (buildKVDict (findKV comment)) k =
      (lastVal (findKV comment) k).map stripQuotes := by
    unfold buildKVDict
    rw [dictLookup_foldKV, hv]
    rfl
  refine ⟨countP_keys_eq_one _ k (buildKVDict_nodup _) ?_, hlook⟩
  rw [hlook, hv]
  rfl

/-- C9 witness: `a=1 b=2 a=3` keeps one entry for `a`, bound to `3`. -/
theorem C9_last_wins_witness :
    2 ≤ (findKV "a=1 b=2 a=3").countP (fun p => p.1 == "a") ∧
    ((buildKVDict (findKV "a=1 b=2 a=3")).countP (fun p => p.1 == "a") = 1 ∧
      dictLookup (buildKVDict (findKV "a=1 b=2 a=3")) "a" =
        (lastVal (findKV "a=1 b=2 a=3") "a").map stripQuotes) :=
  ⟨by decide, C9_last_wins "a=1 b=2 a=3" "a" (by decide)⟩

/-! ### C4: malformed rows abort the frame with full diagnostics -/

/-- If the rows before index `pre.length` are well-formed and that row's
token count mismatches, the loop stops there with the assertion data. -/
theorem readRows_assertFail (props : List FrameProperties) (total : ℤ)
    (bad : String) (post : List String)
    (hbad : ((pySplitWs bad).length : ℤ) ≠ total) :
    ∀ (pre : List String) (m rem : ℕ) (data : ColData),
      pre.length < rem →
      (∀ r ∈ pre, ((pySplitWs r).length : ℤ) = total ∧
        (processRow (pySplitWs r) props 0 []).isSome) →
      readRows (pre ++ bad :: post) rem m props total data =
        RowsOutcome.assertFail total (pySplitWs bad).length (m + pre.length + 3) := by
  intro pre
  induction pre with
  | nil =>
    intro m rem data hrem hgood
    obtain ⟨k, hk⟩ : ∃ k, rem = k + 1 := ⟨rem - 1, by omega⟩
    subst hk
    simp [readRows, hbad]
  | cons r pre' ih =>
    intro m rem data hrem hgood
    obtain ⟨k, hk⟩ : ∃ k, rem = k + 1 := ⟨rem - 1, by omega⟩
    subst hk
    obtain ⟨hlen, hsome⟩ := hgood r (by simp)
    have hsome' : (processRow (pySplitWs r) props 0 data).isSome :=
      (processRow_isSome_congr (pySplitWs r) props 0 data []).mpr hsome
    obtain ⟨d2, hd2⟩ := Option.isSome_iff_exists.mp hsome'
    have ihr := ih (m + 1) k d2 (by simp at hrem; omega)
      (fun q hq => hgood q (by simp [hq]))
    have harith : m + 1 + pre'.length + 3 = m + (pre'.length + 1) + 3 := by omega
    simp only [List.cons_append, List.length_cons]
    rw [show readRows (r :: (pre' ++ bad :: post)) (k + 1) m props total data =
        readRows (pre' ++ bad :: post) k (m + 1) props total d2 by
      simp [readRows, hlen, hd2]]
    rw [ihr, harith]

/-- C4: the first per-atom row whose whitespace token count differs from
the schema's column-count sum makes the whole read fail immediately with
the assertion's data — the expected count, the actual count, and the
row's 1-based index offset by the two header lines (`atom_idx + 3`) —
and no frame is returned for that frame. -/
theorem C4_malformed_row (l1 l2 : String) (n : ℤ) (pc : ParsedComment)
    (pre : List String) (bad : String) (post : List String)
    (h1 : pyInt l1 = some n) (h2 : parseComment l2 = some pc)
    (hrem : pre.length < n.toNat)
    (hgood : ∀ r ∈ pre, ((pySplitWs r).length : ℤ) = totalCols pc.props ∧
      (processRow (pySplitWs r) pc.props 0 []).isSome)
    (hbad : ((pySplitWs bad).length : ℤ) ≠ totalCols pc.props) :
    readFrame (l1 :: l2 :: (pre ++ bad :: post)) =
      ReadResult.malformedRow (totalCols pc.props) (pySplitWs bad).length (pre.length + 3) := by
  have hr := readRows_assertFail pc.props (totalCols pc.props) bad post hbad pre 0 n.toNat [] hrem hgood
  simp [readFrame, h1, h2, hr]

/-- C4 witness: the second row of a 1-column schema frame has 2 tokens;
the reader reports expected 1, got 2, at line 4. -/
theorem C4_malformed_row_witness :
    readFrame ["2", "Lattice=\"0 0 0 0 0 0 0 0 0\" Properties=a:S:1", "x", "x y"] =
      ReadResult.malformedRow 1 2 4 :=
  C4_malformed_row "2" "Lattice=\"0 0 0 0 0 0 0 0 0\" Properties=a:S:1" 2
    ⟨[(0, 0, 0), (0, 0, 0), (0, 0, 0)], [⟨"a", ColumnDataType.STRING, 1⟩], []⟩
    ["x"] "x y" [] (by decide) (by decide) (by decide) (by decide) (by decide)

/-! ### C5: column lengths and arities in a parsed frame -/

/-- Appending to a label's column: the looked-up column gains one entry. -/
theorem dictLookup_dataAppend_self (d : ColData) (l : String) (e : ColEntry) :
    dictLookup (dataAppend d l e) l = some ((dictLookup d l).getD [] ++ [e]) := by
  induction d with
  | nil => simp [dataAppend, dictLookup]
  | cons p r ih =>
    by_cases hl : p.1 = l
    · simp [dataAppend, dictLookup, hl]
    · simp [dataAppend, dictLookup, hl, ih]

/-- Appending to one label leaves every other label's column unchanged. -/
theorem dictLookup_dataAppend_ne (d : ColData) (l : String) (e : ColEntry) (k : String)
    (h : k ≠ l) : dictLookup (dataAppend d l e) k = dictLookup d k := by
  induction d with
  | nil => simp [dataAppend, dictLookup, Ne.symm h]
  | cons p r ih =>
    by_cases hl : p.1 = l
    · simp [dataAppend, dictLookup, hl, Ne.symm h, h]
    · by_cases hk : p.1 = k
      · simp [dataAppend, dictLookup, hl, hk, h]
      · simp [dataAppend, dictLookup, hl, hk, h, ih]

/-- A slice `l[a : a+k]` with `0 ≤ a`, `0 ≤ k`, `a + k ≤ len` has length `k`. -/
theorem pySlice_length {α : Type} (l : List α) (a k : ℤ) (ha : 0 ≤ a) (hk : 0 ≤ k)
    (hle : a + k ≤ (l.length : ℤ)) : ((pySlice l a (a + k)).length : ℤ) = k := by
  have h1 : ¬(a < 0) := by omega
  have h2 : ¬(a + k < 0) := by omega
  have e1 : a.toNat.min l.length = a.toNat := Nat.min_eq_left (by omega)
  have e2 : (a + k).toNat.min l.length = (a + k).toNat := Nat.min_eq_left (by omega)
  simp only [pySlice, h1, h2, if_false, e1, e2, List.length_take, List.length_drop]
  omega

/-- A successful `mapM` preserves the length. -/
theorem mapM_some_length (f : String → Option PyScalar) :
    ∀ (l : List String) (vs : List PyScalar), l.mapM f = some vs → vs.length = l.length := by
  intro l
  induction l with
  | nil =>
    intro vs h
    simp only [List.mapM_nil, pure, Option.some.injEq] at h
    simp [← h]
  | cons a r ih =>
    intro vs h
    rw [List.mapM_cons] at h
    cases hfa : f a with
    | none => rw [hfa] at h; simp [bind] at h
    | some b =>
      rw [hfa] at h
      cases hmr : r.mapM f with
      | none => rw [hmr] at h; simp [bind] at h
      | some bs =>
        rw [hmr] at h
        simp only [bind, Option.bind, pure, Option.some.injEq] at h
        subst h
        simp [ih bs hmr]

/-- With nonnegative column counts the schema total is nonnegative. -/
theorem totalCols_nonneg (ps : List FrameProperties) (h : ∀ p ∈ ps, 0 ≤ p.column_count) :
    0 ≤ totalCols ps := by
  refine List.sum_nonneg ?_
  intro x hx
  obtain ⟨p, hp, rfl⟩ := List.mem_map.mp hx
  exact h p hp

/-- In a schema with pairwise-distinct labels, a member's label occurs once. -/
theorem countP_label_eq_one (props : List FrameProperties) (p : FrameProperties)
    (hnodup : (props.map (·.label)).Nodup) (hp : p ∈ props) :
    props.countP (fun q => q.label == p.label) = 1 := by
  induction props with
  | nil => simp at hp
  | cons q r ih =>
    rw [List.map_cons, List.nodup_cons] at hnodup
    rcases List.mem_cons.mp hp with rfl | hp'
    · have hz : r.countP (fun q2 => q2.label == p.label) = 0 := by
        rw [List.countP_eq_zero]
        intro q2 hq2
        simp only [beq_iff_eq]
        intro hlab
        exact hnodup.1 (hlab ▸ List.mem_map_of_mem (·.label) hq2)
      simp [List.countP_cons, hz]
    · have hne : ¬(q.label = p.label) := by
        intro hlab
        exact hnodup.1 (hlab ▸ List.mem_map_of_mem (·.label) hp')
      simp [List.countP_cons, hne, ih hnodup.2 hp']

/-- Effect of one row on the columns, for a schema with distinct labels,
nonnegative counts and offsets within the row: every schema label's
column gains exactly one entry, other labels are untouched, and an entry
added for a property with `column_count > 1` is a `vec` of exactly
`column_count` scalars. -/
theorem processRow_effect (split : List String) :
    ∀ (ps : List FrameProperties) (off : ℤ) (data data' : ColData),
      processRow split ps off data = some data' →
      (ps.map (·.label)).Nodup →
      (∀ p ∈ ps, 0 ≤ p.column_count) →
      0 ≤ off →
      off + totalCols ps ≤ (split.length : ℤ) →
      (∀ k, ((dictLookup data' k).getD []).length =
          ((dictLookup data k).getD []).length + ps.countP (fun p => p.label == k)) ∧
      (∀ k, ps.countP (fun p => p.label == k) = 0 →
          dictLookup data' k = dictLookup data k) ∧
      (∀ p ∈ ps, 1 < p.column_count →
          ∀ e ∈ (dictLookup data' p.label).getD [],
            e ∈ (dictLookup data p.label).getD [] ∨
            ∃ vs, e = ColEntry.vec vs ∧ (vs.length : ℤ) = p.column_count) := by
  intro ps
  induction ps with
  | nil =>
    intro off data data' h _ _ _ _
    simp only [processRow, Option.some.injEq] at h
    subst h
    simp
  | cons p ps ih =>
    intro off data data' h hnodup hcounts hoff hsum
    rw [List.map_cons, List.nodup_cons] at hnodup
    have hc : 0 ≤ p.column_count := hcounts p (by simp)
    have htail_nonneg : 0 ≤ totalCols ps :=
      totalCols_nonneg ps (fun q hq => hcounts q (by simp [hq]))
    have htc : totalCols (p :: ps) = p.column_count + totalCols ps := by
      simp [totalCols]
    simp only [processRow] at h
    cases hentry : (if p.column_count = 1 then
          match (pySlice split off (off + p.column_count)).head? with
          | none => none
          | some t => (p.datatype.getParser t).map ColEntry.scalar
        else
          ((pySlice split off (off + p.column_count)).mapM p.datatype.getParser).map
            ColEntry.vec) with
    | none => rw [hentry] at h; simp at h
    | some e =>
      rw [hentry] at h
      have hoff' : 0 ≤ off + p.column_count := by omega
      have hsum' : (off + p.column_count) + totalCols ps ≤ (split.length : ℤ) := by
        rw [htc] at hsum; omega
      obtain ⟨ha, hb, hcc⟩ := ih (off + p.column_count) (dataAppend data p.label e) data' h
        hnodup.2 (fun q hq => hcounts q (by simp [hq])) hoff' hsum'
      refine ⟨?_, ?_, ?_⟩
      · intro k
        rw [ha k, List.countP_cons]
        by_cases hk : p.label = k
        · rw [← hk, dictLookup_dataAppend_self]
          simp [hk]
          omega
        · rw [dictLookup_dataAppend_ne data p.label e k (Ne.symm hk)]
          simp [hk]
      · intro k hcnt
        rw [List.countP_cons] at hcnt
        by_cases hk : p.label = k
        · simp [hk] at hcnt
        · simp only [beq_iff_eq, hk, if_false, Nat.add_zero] at hcnt
          rw [hb k hcnt, dictLookup_dataAppend_ne data p.label e k (Ne.symm hk)]
      · intro q hq hqc e' he'
        rcases List.mem_cons.mp hq with rfl | hq'
        · have hz : ps.countP (fun q2 => q2.label == q.label) = 0 := by
            rw [List.countP_eq_zero]
            intro q2 hq2
            simp only [beq_iff_eq]
            intro hlab
            exact hnodup.1 (hlab ▸ List.mem_map_of_mem (·.label) hq2)
          rw [hb q.label hz, dictLookup_dataAppend_self] at he'
          simp only [Option.getD_some] at he'
          rcases List.mem_append.mp he' with hmem | hmem
          · exact Or.inl hmem
          · have he'e : e' = e := by simpa using hmem
            have hne1 : ¬(q.column_count = 1) := by omega
            rw [if_neg hne1] at hentry
            obtain ⟨vs, hvs, hveq⟩ := Option.map_eq_some'.mp hentry
            refine Or.inr ⟨vs, by rw [he'e, ← hveq], ?_⟩
            have hlen := mapM_some_length q.datatype.getParser _ vs hvs
            have hslice := pySlice_length split off q.column_count hoff hc (by omega)
            rw [hlen]
            exact hslice
        · rcases hcc q hq' hqc e' he' with hmem | hshape
          · have hne : q.label ≠ p.label := fun hlab =>
              hnodup.1 (hlab ▸ List.mem_map_of_mem (·.label) hq')
            rw [dictLookup_dataAppend_ne data p.label e q.label hne] at hmem
            exact Or.inl hmem
          · exact Or.inr hshape

/-- Effect of the whole row loop: after `rem` successful rows, each
schema label's column has grown by `rem` entries, and multi-column
entries have the declared arity. -/
theorem readRows_effect (props : List FrameProperties) (total : ℤ)
    (htotal : total = totalCols props)
    (hnodup : (props.map (·.label)).Nodup)
    (hcounts : ∀ p ∈ props, 0 ≤ p.column_count) :
    ∀ (rem : ℕ) (lines : List String) (m : ℕ) (data data' : ColData) (rest : List String),
      readRows lines rem m props total data = RowsOutcome.ok data' rest →
      (∀ k, ((dictLookup data' k).getD []).length =
          ((dictLookup data k).getD []).length + rem * props.countP (fun p => p.label == k)) ∧
      (∀ p ∈ props, 1 < p.column_count →
          ∀ e ∈ (dictLookup data' p.label).getD [],
            e ∈ (dictLookup data p.label).getD [] ∨
            ∃ vs, e = ColEntry.vec vs ∧ (vs.length : ℤ) = p.column_count) := by
  intro rem
  induction rem with
  | zero =>
    intro lines m data data' rest h
    simp only [readRows, RowsOutcome.ok.injEq] at h
    obtain ⟨h1, h2⟩ := h
    subst h1
    exact ⟨fun k => by simp, fun p _ _ e he => Or.inl he⟩
  | succ r ihr =>
    intro lines m data data' rest h
    cases lines with
    | nil => simp [readRows] at h
    | cons line rest2 =>
      simp only [readRows] at h
      by_cases hlen : ((pySplitWs line).length : ℤ) = total
      · rw [if_pos hlen] at h
        cases hpr : processRow (pySplitWs line) props 0 data with
        | none => rw [hpr] at h; simp at h
        | some d2 =>
          rw [hpr] at h
          have hsum0 : (0 : ℤ) + totalCols props ≤ ((pySplitWs line).length : ℤ) := by
            rw [hlen, htotal]; omega
          obtain ⟨ha, _, hshape⟩ := processRow_effect (pySplitWs line) props 0 data d2 hpr
            hnodup hcounts (le_refl 0) hsum0
          obtain ⟨ha2, hshape2⟩ := ihr rest2 (m + 1) d2 data' rest h
          refine ⟨?_, ?_⟩
          · intro k
            rw [ha2 k, ha k]
            ring
          · intro p hp hpc e he
            rcases hshape2 p hp hpc e he with hmem | hs
            · exact hshape p hp hpc e hmem
            · exact Or.inr hs
      · rw [if_neg hlen] at h
        simp at h

/-- C5 amended: for every successfully parsed frame whose schema labels
are pairwise distinct, whose column counts are all nonnegative and whose
atom count is nonnegative, every schema label's column (read as empty
when the label is absent, as happens when the atom count is `0`) holds
exactly `atom_count` entries, and for a property with
`column_count = k > 1` every entry of its column is a sequence of
exactly `k` scalars. -/
theorem C5_amended (lines : List String) (f : ExtXYZFrame) (rest : List String)
    (hread : readFrame lines = ReadResult.frame f rest)
    (hnodup : (f.frameProps.map (·.label)).Nodup)
    (hcounts : ∀ p ∈ f.frameProps, 0 ≤ p.column_count)
    (hn : 0 ≤ f.num_atoms) :
    ∀ p ∈ f.frameProps,
      ((dictLookup f.data p.label).getD []).length = f.num_atoms.toNat ∧
      (1 < p.column_count →
        ∀ e ∈ (dictLookup f.data p.label).getD [],
          ∃ vs, e = ColEntry.vec vs ∧ (vs.length : ℤ) = p.column_count) := by
  cases lines with
  | nil => simp [readFrame] at hread
  | cons l1 r1 =>
    cases hpi : pyInt l1 with
    | none => simp [readFrame, hpi] at hread
    | some n =>
      cases r1 with
      | nil => simp [readFrame, hpi] at hread
      | cons l2 r2 =>
        cases hpc : parseComment l2 with
        | none => simp [readFrame, hpi, hpc] at hread
        | some pc =>
          cases hrr : readRows r2 n.toNat 0 pc.props (totalCols pc.props) [] with
          | eof => simp [readFrame, hpi, hpc, hrr] at hread
          | assertFail a b c => simp [readFrame, hpi, hpc, hrr] at hread
          | parseErr => simp [readFrame, hpi, hpc, hrr] at hread
          | ok data rest2 =>
            simp only [readFrame, hpi, hpc, hrr, ReadResult.frame.injEq] at hread
            obtain ⟨hf, hrest⟩ := hread
            subst hf
            obtain ⟨heff, hshape⟩ := readRows_effect pc.props (totalCols pc.props) rfl
              hnodup hcounts n.toNat r2 0 [] data rest2 hrr
            intro p hp
            have hcount := countP_label_eq_one pc.props p hnodup hp
            constructor
            · rw [heff p.label, hcount]
              simp [dictLookup]
            · intro hpc2 e he
              rcases hshape p hp hpc2 e he with hmem | hs
              · simp [dictLookup] at hmem
              · exact hs

/-- C5 counterexample: a schema that declares the same label twice
(`Properties=a:I:1:a:I:1`) parses successfully, and the label's column
then holds `2` entries for a frame with `atom_count = 1` — the claim's
\"exactly atom_count entries for every label referenced by the schema\"
fails on duplicate-label schemas. -/
theorem C5_counterexample :
    readFrame ["1", "Lattice=\"0 0 0 0 0 0 0 0 0\" Properties=a:I:1:a:I:1", "0 1"] =
      ReadResult.frame
        ⟨1, [(0, 0, 0), (0, 0, 0), (0, 0, 0)],
         [⟨"a", ColumnDataType.INT, 1⟩, ⟨"a", ColumnDataType.INT, 1⟩], [],
         [("a", [ColEntry.scalar (PyScalar.int 0), ColEntry.scalar (PyScalar.int 1)])]⟩ [] ∧
    ¬((dictLookup
        [("a", [ColEntry.scalar (PyScalar.int 0), ColEntry.scalar (PyScalar.int 1)])]
        "a").getD []).length = (1 : ℤ).toNat := by
  decide

/-- C5 witness: the spec's end-to-end example frame; the `pos` column
holds 2 entries of 3 scalars each. -/
theorem C5_amended_witness :
    ((dictLookup
        [("species", [ColEntry.scalar (PyScalar.str "O"), ColEntry.scalar (PyScalar.str "H")]),
         ("pos",
          [ColEntry.vec [PyScalar.real 0, PyScalar.real 0, PyScalar.real 0],
           ColEntry.vec [PyScalar.real 0, PyScalar.real 0, PyScalar.real 1]])]
        "pos").getD []).length = (2 : ℤ).toNat ∧
    (1 < (3 : ℤ) →
      ∀ e ∈ ((dictLookup
          [("species", [ColEntry.scalar (PyScalar.str "O"), ColEntry.scalar (PyScalar.str "H")]),
           ("pos",
            [ColEntry.vec [PyScalar.real 0, PyScalar.real 0, PyScalar.real 0],
             ColEntry.vec [PyScalar.real 0, PyScalar.real 0, PyScalar.real 1]])]
          "pos").getD []),
        ∃ vs, e = ColEntry.vec vs ∧ (vs.length : ℤ) = (3 : ℤ)) :=
  C5_amended
    ["2", "Lattice=\"1 0 0 0 1 0 0 0 1\" Properties=species:S:1:pos:R:3 Energy=-7",
     "O 0 0 0", "H 0 0 1"]
    ⟨2, [(1, 0, 0), (0, 1, 0), (0, 0, 1)],
     [⟨"species", ColumnDataType.STRING, 1⟩, ⟨"pos", ColumnDataType.REAL, 3⟩],
     [("Energy", PyScalar.int (-7))],
     [("species", [ColEntry.scalar (PyScalar.str "O"), ColEntry.scalar (PyScalar.str "H")]),
      ("pos",
       [ColEntry.vec [PyScalar.real 0, PyScalar.real 0, PyScalar.real 0],
        ColEntry.vec [PyScalar.real 0, PyScalar.real 0, PyScalar.real 1]])]⟩ []
    (by decide) (by decide) (by decide) (by decide)
    ⟨"pos", ColumnDataType.REAL, 3⟩ (by decide)
